import Mathlib

/-!
Verification of the antigravity-pulse extension core.

The development shallowly embeds the two core components of the repository:

* the quota classifier (`quota-fetcher.ts`, current dynamic-pool version):
  `classifyFamily`, `derivePoolName`, `formatTime`, `parseResponse` and the
  `(remainingPct, resetTime)` bucket grouping, plus the HTTP-then-HTTPS
  transport fallback `postWithFallback`;
* the process locator (`process-finder.ts`): `parseUnix`, `parseWindows`,
  `parsePortOutput`, `findWorkingPort`, `testPort`, and the orchestrating
  `refreshQuota` cycle of `extension.ts`.

Modelling conventions:

* JavaScript numbers are embedded as exact rationals (`ℚ`) and timestamps as
  integer epoch milliseconds (`Int`); an invalid `Date` (whose `getTime()` is
  `NaN`) is `Option.none`.
* The JS `Map` used for pool bucketing is an insertion-ordered association
  list; the bucket key, a template string built from the number
  `remainingPct` and `Date.prototype.toISOString` (both injective renderings
  on their valid domains), is the pair `(remainingPct, epochMillis)`;
  `toISOString` throwing on an invalid `Date` is an `Except.error`.
* Network and OS effects are oracles passed as function arguments; the
  functions that consume them are translated line by line from the source.
-/

set_option maxRecDepth 8000

namespace AntigravityPulse

/- ───────────────────── JS string primitives ───────────────────── -/

/-- Model of checking that the second char list is an initial segment of
the first, up to a character comparison `chEq`. -/
def litMatches (chEq : Char → Char → Bool) : List Char → List Char → Bool
  | _, [] => true
  | [], _ :: _ => false
  | c :: cs, d :: ds => chEq c d && litMatches chEq cs ds

/-- Model of `String.prototype.startsWith` on char lists (exact characters). -/
def strStartsWithL (s pat : List Char) : Bool :=
  litMatches (fun c d => c = d) s pat

/-- Model of `String.prototype.includes` on char lists. -/
def strHasSubL : List Char → List Char → Bool
  | [], pat => strStartsWithL [] pat
  | s@(_ :: cs), pat => strStartsWithL s pat || strHasSubL cs pat

/-- Model of `String.prototype.includes`. -/
def containsSub (s pat : String) : Bool :=
  strHasSubL s.toList pat.toList

/-- Model of `String.prototype.toLowerCase` (ASCII lowering, which is all the
source's inputs use). -/
def strLower (s : String) : String :=
  String.mk (s.toList.map Char.toLower)

/- ───────────────────── Quota fetcher: data model ───────────────────── -/

/-- Raw `quotaInfo` carried by a model entry of the `GetUserStatus` response.
`remainingFraction` is absent when the upstream omits the field (the source
applies a `?? 0` default); `resetTime` is the epoch-millisecond instant the
raw timestamp parses to, `none` when the field is missing or unparseable
(JS `new Date(...)` yields an Invalid Date). -/
structure RawQuotaInfo where
  remainingFraction : Option ℚ
  resetTime : Option Int
deriving Repr, DecidableEq

/-- Raw per-model entry (`clientModelConfigs` element). An absent or empty
`label` / `modelOrAlias.model` is the empty string (both are falsy in JS). -/
structure RawModel where
  label : String
  modelId : String
  quotaInfo : Option RawQuotaInfo
deriving Repr, DecidableEq

/-- Default raw model used only as the `getD` placeholder for list indexing. -/
def rawDefault : RawModel := ⟨"", "", none⟩

/-- Parsed per-model quota record (`ModelQuota` in the source). -/
structure ModelQuota where
  label : String
  modelId : String
  family : String
  remainingPct : ℚ
  isExhausted : Bool
  resetTime : Option Int
  timeUntilReset : String
deriving Repr, DecidableEq

/-- Detected quota pool (`QuotaPool` in the source). -/
structure QuotaPool where
  id : String
  displayName : String
  remainingPct : ℚ
  isExhausted : Bool
  resetTime : Option Int
  timeUntilReset : String
  models : List ModelQuota
deriving Repr, DecidableEq

/-- Prompt-credit summary (`PromptCredits` in the source). -/
structure PromptCredits where
  available : ℚ
  monthly : ℚ
  remainingPct : ℚ
deriving Repr, DecidableEq

/-- The optional `planStatus` section of the server response. -/
structure RawPlanStatus where
  monthlyPromptCredits : ℚ
  availablePromptCredits : Option ℚ
deriving Repr, DecidableEq

/-- The `GetUserStatus` response body (`ServerResponse` in the source):
an optional plan section and an optional `clientModelConfigs` list. -/
structure ServerResponse where
  planStatus : Option RawPlanStatus
  clientModelConfigs : Option (List RawModel)
deriving Repr, DecidableEq

/-- Classified snapshot (`QuotaSnapshot` in the source); `timestamp` is the
wall clock passed to the parse. -/
structure QuotaSnapshot where
  credits : Option PromptCredits
  pools : List QuotaPool
  models : List ModelQuota
  timestamp : Int
deriving Repr, DecidableEq

/- ───────────────────── Quota fetcher: functions ───────────────────── -/

/-- Source `classifyFamily`: coarse family from case-insensitive substring
matches on `label + ' ' + modelId`. -/
def classifyFamily (label modelId : String) : String :=
  let lower := strLower (label ++ " " ++ modelId)
  if containsSub lower "claude" then "claude"
  else if containsSub lower "gpt" then "gpt"
  else if containsSub lower "gemini" then
    if containsSub lower "flash" then "gemini_flash" else "gemini"
  else "other"

/-- Source `formatTime`. The source computes `Math.ceil(ms / 60_000)`; on the
positive branch this is the integer ceiling division below (all intermediate
quantities are nonnegative, so `Nat` arithmetic matches JS exactly). -/
def formatTime (ms : Int) : String :=
  if ms ≤ 0 then "Now"
  else
    let mins : Nat := (ms.toNat + 59999) / 60000
    if mins < 60 then toString mins ++ "m"
    else
      let h : Nat := mins / 60
      if h ≥ 24 then
        let d : Nat := h / 24
        let remH : Nat := h % 24
        if remH > 0 then toString d ++ "d " ++ toString remH ++ "h"
        else toString d ++ "d"
      else toString h ++ "h " ++ toString (mins % 60) ++ "m"

/-- The `timeUntilReset` string: `formatTime(resetTime.getTime() - Date.now())`.
On an invalid `Date` the difference is `NaN`, every comparison in
`formatTime` is false, and the template renders the literal "NaNh NaNm". -/
def timeUntil (now : Int) (resetTime : Option Int) : String :=
  match resetTime with
  | some t => formatTime (t - now)
  | none => "NaNh NaNm"

/-- The per-model mapping body inside `parseResponse` (source lines building
one `ModelQuota` from a raw entry that passed the `quotaInfo` filter). -/
def mkModel (now : Int) (m : RawModel) : ModelQuota :=
  let qi := m.quotaInfo.getD ⟨none, none⟩
  let fraction := qi.remainingFraction.getD 0
  let label := if m.label = "" then "Unknown" else m.label
  let modelId := if m.modelId = "" then "unknown" else m.modelId
  { label := label
    modelId := modelId
    family := classifyFamily label modelId
    remainingPct := fraction * 100
    isExhausted := decide (fraction = 0)
    resetTime := qi.resetTime
    timeUntilReset := timeUntil now qi.resetTime }

/-- The models pipeline of `parseResponse`:
`rawModels.filter(m => m.quotaInfo).map(...)`. -/
def parseModels (rs : List RawModel) (now : Int) : List ModelQuota :=
  (rs.filter fun m => m.quotaInfo.isSome).map (mkModel now)

/-- The pool-bucketing key built in `parseResponse`
(the string `remainingPct + '|' + resetTime.toISOString()`); serializing an
invalid `Date` throws `RangeError: Invalid time value`. -/
def bucketKey (m : ModelQuota) : Except String (ℚ × Int) :=
  match m.resetTime with
  | none => .error "Invalid time value"
  | some t => .ok (m.remainingPct, t)

/-- One iteration of the `bucketMap` loop: push onto the existing bucket for
the key, or append a new bucket (JS `Map` keeps insertion order). -/
def addToBuckets :
    List ((ℚ × Int) × List ModelQuota) → (ℚ × Int) → ModelQuota →
    List ((ℚ × Int) × List ModelQuota)
  | [], k, m => [(k, [m])]
  | (k', l) :: bs, k, m =>
    if k' = k then (k', l ++ [m]) :: bs else (k', l) :: addToBuckets bs k m

/-- The bucketing loop of `parseResponse` over the model list, threading the
accumulated buckets; the first invalid `resetTime` aborts with the thrown
error. -/
def buildBucketsAux :
    List ((ℚ × Int) × List ModelQuota) → List ModelQuota →
    Except String (List ((ℚ × Int) × List ModelQuota))
  | bs, [] => .ok bs
  | bs, m :: ms =>
    match bucketKey m with
    | .error e => .error e
    | .ok k => buildBucketsAux (addToBuckets bs k m) ms

/-- The complete bucket map built by `parseResponse`. -/
def buildBuckets (ms : List ModelQuota) :
    Except String (List ((ℚ × Int) × List ModelQuota)) :=
  buildBucketsAux [] ms

/-- Source `derivePoolName`: short id/display name from the member families. -/
def derivePoolName (models : List ModelQuota) : String × String :=
  let families := models.map (·.family)
  let hasPro := families.contains "gemini"
  let hasFlash := families.contains "gemini_flash"
  if hasPro && hasFlash then ("gemini", "Gemini")
  else if hasPro && !hasFlash then ("gemini_pro", "Gem Pro")
  else if hasFlash && !hasPro then ("gemini_flash", "Gem Flash")
  else
    let hasClaudeOrGpt := families.contains "claude" || families.contains "gpt"
    if hasClaudeOrGpt then ("claude_gpt", "Claude")
    else ("other",
      match models with
      | [] => "Other"
      | m :: _ => if m.label = "" then "Other" else m.label)

/-- The fixed family priority list used for pool ordering. -/
def familyOrder : List String := ["gemini", "gemini_flash", "claude", "gpt", "other"]

/-- Model of `Array.prototype.indexOf` (−1 when absent). -/
def jsIndexOfAux : List String → String → Int → Int
  | [], _, _ => -1
  | a :: as, s, i => if a = s then i else jsIndexOfAux as s (i + 1)

/-- Model of `familyOrder.indexOf` style lookups. -/
def jsIndexOf (l : List String) (s : String) : Int := jsIndexOfAux l s 0

/-- The sort key of a bucket: `Math.min(...members.map(m =>
familyOrder.indexOf(m.family)))`.  Buckets are never empty (the `[]` value is
unreachable; JS `Math.min()` of an empty spread is `Infinity`). -/
def bucketRank : List ModelQuota → Int
  | [] => 0
  | m :: ms =>
    (ms.map fun m' => jsIndexOf familyOrder m'.family).foldl
      min (jsIndexOf familyOrder m.family)

/-- Stable insertion of a bucket into a rank-sorted bucket list. -/
def insertRanked (a : List ModelQuota) :
    List (List ModelQuota) → List (List ModelQuota)
  | [] => [a]
  | b :: bs =>
    if bucketRank a ≤ bucketRank b then a :: b :: bs else b :: insertRanked a bs

/-- Model of `[...bucketMap.values()].sort((a, b) => aIdx - bIdx)`:
JS `Array.prototype.sort` is stable, and a stable sort by a total preorder is
unique, so stable insertion sort by `bucketRank` produces the same list. -/
def sortBuckets : List (List ModelQuota) → List (List ModelQuota)
  | [] => []
  | b :: bs => insertRanked b (sortBuckets bs)

/-- The representative member: `members.reduce((a, b) =>
a.remainingPct < b.remainingPct ? a : b)` as a left fold. -/
def reduceMinPct : ModelQuota → List ModelQuota → ModelQuota
  | a, [] => a
  | a, b :: bs => reduceMinPct (if a.remainingPct < b.remainingPct then a else b) bs

/-- The pool built from one bucket's members.  `Array.prototype.reduce`
throws on an empty array; buckets are never empty, so that case is `none`. -/
def mkPool (members : List ModelQuota) : Option QuotaPool :=
  match members with
  | [] => none
  | m :: ms =>
    let nm := derivePoolName (m :: ms)
    let rep := reduceMinPct m ms
    some { id := nm.1
           displayName := nm.2
           remainingPct := rep.remainingPct
           isExhausted := rep.isExhausted
           resetTime := rep.resetTime
           timeUntilReset := rep.timeUntilReset
           models := m :: ms }

/-- The prompt-credits section of `parseResponse`: present only when the
plan section exists, `availablePromptCredits` is defined, and the monthly
allotment is strictly positive. -/
def parseCredits (ps : Option RawPlanStatus) : Option PromptCredits :=
  match ps with
  | none => none
  | some s =>
    match s.availablePromptCredits with
    | none => none
    | some available =>
      if s.monthlyPromptCredits > 0 then
        some { available := available
               monthly := s.monthlyPromptCredits
               remainingPct := available / s.monthlyPromptCredits * 100 }
      else none

/-- Source `parseResponse`: credits, flat model list, dynamic
`(remainingPct, resetTime)` buckets, rank-sorted pools.  A thrown
`Invalid time value` from the bucket loop propagates as the error case
(so `fetchQuota` rejects instead of resolving a snapshot). -/
def parseResponse (data : ServerResponse) (now : Int) :
    Except String QuotaSnapshot :=
  match buildBuckets (parseModels (data.clientModelConfigs.getD []) now) with
  | .error e => .error e
  | .ok bs =>
    .ok { credits := parseCredits data.planStatus
          pools := (sortBuckets (bs.map (·.2))).filterMap mkPool
          models := parseModels (data.clientModelConfigs.getD []) now
          timestamp := now }

/- ───────────────────── Process finder: data model ───────────────────── -/

/-- Connection descriptor returned by the locator (`ProcessInfo`). -/
structure ProcessInfo where
  port : Nat
  csrfToken : String
deriving Repr, DecidableEq

/-- Result of command-line parsing (`ParsedProcess`).  `pid` is `none` when
`parseInt` produced `NaN`. -/
structure ParsedProcess where
  pid : Option Nat
  extensionPort : Nat
  csrfToken : String
deriving Repr, DecidableEq

/- ───────────────────── Process finder: regex scanners ───────────────────── -/

/-- Character class `[=\s]` of the argument regexes. -/
def isEqOrSpace (c : Char) : Bool := c = '=' || c.isWhitespace

/-- Character class `[a-zA-Z0-9\-]` of the Unix token regex. -/
def isTokenChar (c : Char) : Bool := c.isAlpha || c.isDigit || c = '-'

/-- Character class `[a-f0-9\-]` with the `/i` flag of the Windows token
regex. -/
def isHexTokenChar (c : Char) : Bool :=
  ('a' ≤ c && c ≤ 'f') || ('A' ≤ c && c ≤ 'F') || c.isDigit || c = '-'

/-- At one position, match the pattern `<lit>[sep]+([cap]+)` and return the
capture.  The separator and capture classes used by the source are disjoint,
so greedy matching without backtracking is exact. -/
def capAfterLit (sep cap : Char → Bool) (cs : List Char) :
    Option (List Char) :=
  let sp := cs.span sep
  if sp.1.isEmpty then none
  else
    let cp := sp.2.span cap
    if cp.1.isEmpty then none else some cp.1

/-- Leftmost match of `<lit>[sep]+([cap]+)` in a char list, as a JS regex
engine finds it: try each position left to right. -/
def scanPat (chEq : Char → Char → Bool) (lit : List Char)
    (sep cap : Char → Bool) : List Char → Option (List Char)
  | [] => none
  | cs@(_ :: cs') =>
    if litMatches chEq cs lit then
      match capAfterLit sep cap (cs.drop lit.length) with
      | some capture => some capture
      | none => scanPat chEq lit sep cap cs'
    else scanPat chEq lit sep cap cs'

/-- Model of `parseInt(s, 10)` on the digit captures the source feeds it. -/
def digitsToNat (ds : List Char) : Nat :=
  ds.foldl (fun n c => 10 * n + (c.toNat - '0'.toNat)) 0

/-- The port-hint regex `--extension_server_port[=\s]+(\d+)` applied to a
command line, with `parseInt` on the capture. -/
def matchPort (cmd : String) : Option Nat :=
  (scanPat (fun c d => c = d) "--extension_server_port".toList
      isEqOrSpace Char.isDigit cmd.toList).map digitsToNat

/-- The Unix token regex `--csrf_token[=\s]+([a-zA-Z0-9\-]+)`. -/
def matchToken (cmd : String) : Option String :=
  (scanPat (fun c d => c = d) "--csrf_token".toList
      isEqOrSpace isTokenChar cmd.toList).map String.mk

/-- The Windows token regex `--csrf_token[=\s]+([a-f0-9\-]+)` with flag i
(case-insensitive literal, capture keeps the original characters). -/
def matchTokenWin (cmd : String) : Option String :=
  (scanPat (fun c d => c.toLower = d.toLower) "--csrf_token".toList
      isEqOrSpace isHexTokenChar cmd.toList).map String.mk

/- ───────────────────── Process finder: Unix parsing ───────────────────── -/

/-- Model of `String.prototype.trim`: strip whitespace from both ends
(structural recursion over the character list). -/
def jsTrim (s : String) : String :=
  String.mk (((s.toList.dropWhile Char.isWhitespace).reverse.dropWhile
    Char.isWhitespace).reverse)

/-- Split a char list at every occurrence of a separator character. -/
def splitOnChar (sep : Char) : List Char → List (List Char)
  | [] => [[]]
  | d :: ds =>
    match splitOnChar sep ds with
    | [] => [[]]
    | l :: ls => if d = sep then [] :: l :: ls else (d :: l) :: ls

/-- Model of `stdout.split('\n')`. -/
def splitLines (s : String) : List String :=
  (splitOnChar (Char.ofNat 10) s.toList).map String.mk

/-- Model of `s.substring(n)` (JS indexes by code units; the source only
drops an ASCII pid prefix, so dropping characters is exact). -/
def dropChars (s : String) (n : Nat) : String :=
  String.mk (s.toList.drop n)

/-- Source `toWorkspaceId`: prefix the literal `file`, escape spaces as
`_20`, replace path separators with underscores (the two global replaces
commute into one character map because neither replacement reintroduces a
space or a slash). -/
def toWorkspaceId (folderPath : String) : String :=
  "file" ++ String.join (folderPath.toList.map fun c =>
    if c = ' ' then "_20" else if c = '/' then "_" else String.mk [c])

/-- First whitespace-delimited token of a string (`split(/\s+/)[0]` of an
already-trimmed string; the empty string when there is none, matching
`''.split(/\s+/)[0]`). -/
def firstToken (s : String) : String :=
  String.mk ((s.toList.dropWhile Char.isWhitespace).takeWhile
    (fun c => !c.isWhitespace))

/-- Model of `parseInt(parts[0], 10)`: leading decimal digits, `NaN` (`none`)
when there are none. -/
def jsParseIntNat (s : String) : Option Nat :=
  let ds := s.toList.takeWhile Char.isDigit
  if ds.isEmpty then none else some (digitsToNat ds)

/-- Target-line selection of `parseUnix`: keep the lines mentioning
`--extension_server_port`, prefer the one containing the workspace id,
fall back to the first (`(wsId && lines.find(...)) || lines[0]`). -/
def unixTarget (stdout : String) (workspacePath : Option String) :
    Option String :=
  let lines := (splitLines stdout).filter fun l =>
    containsSub l "--extension_server_port"
  match workspacePath.map toWorkspaceId with
  | some w =>
    match lines.find? (fun l => containsSub l w) with
    | some l => some l
    | none => lines.head?
  | none => lines.head?

/-- The command-line slice of a target line:
`target.substring(parts[0].length).trim()` with
`parts = target.trim().split(/\s+/)`. -/
def unixCmd (t : String) : String :=
  jsTrim (dropChars t (firstToken (jsTrim t)).length)

/-- Source `parseUnix` (current version with workspace disambiguation).
Note the missing-token case yields `csrfToken := ""`, not a failure. -/
def parseUnix (stdout : String) (workspacePath : Option String) :
    Option ParsedProcess :=
  match unixTarget stdout workspacePath with
  | none => none
  | some t =>
    some { pid := jsParseIntNat (firstToken (jsTrim t))
           extensionPort := (matchPort (unixCmd t)).getD 0
           csrfToken := (matchToken (unixCmd t)).getD "" }

/- ───────────────────── Process finder: Windows parsing ───────────────────── -/

/-- One record of the PowerShell `ConvertTo-Json` output. -/
structure WinProcEntry where
  CommandLine : Option String
  ProcessId : Option Nat
deriving Repr, DecidableEq

/-- Shape of the parsed PowerShell JSON: a single object or an array. -/
inductive WinJson where
  | single (entry : WinProcEntry)
  | arr (entries : List WinProcEntry)
deriving Repr, DecidableEq

/-- The filter regex `--app_data_dir\s+antigravity\b` with flag i, scanned over the
lowercased command line (the pattern is letter/underscore/hyphen only, so
case-insensitive matching equals exact matching on the lowering); `\b`
demands a non-word character or the end after the literal. -/
def scanAppData : List Char → Bool
  | [] => false
  | cs@(_ :: cs') =>
    (strStartsWithL cs "--app_data_dir".toList &&
      (let sp := (cs.drop 14).span Char.isWhitespace
       !sp.1.isEmpty && strStartsWithL sp.2 "antigravity".toList &&
         (match sp.2.drop 11 with
          | [] => true
          | c :: _ => !(c.isAlpha || c.isDigit || c = '_'))))
    || scanAppData cs'

/-- The Antigravity-process filter of `parseWindows`. -/
def winIsAntigravity (e : WinProcEntry) : Bool :=
  let cmd := e.CommandLine.getD ""
  let lower := strLower cmd
  scanAppData (strLower cmd).toList
    || containsSub lower "\\antigravity\\"
    || containsSub lower "/antigravity/"

/-- Record selection of `parseWindows`: an array is filtered to Antigravity
processes and its first element taken (`null` if none survive); a single
object is used as is. -/
def winChosen (j : WinJson) : Option WinProcEntry :=
  match j with
  | .single e => some e
  | .arr es => (es.filter winIsAntigravity).head?

/-- Source `parseWindows` after `JSON.parse` (`none` input models the parse
throwing, caught to `null`).  Unlike `parseUnix`, a missing or falsy pid or
a missing token is a hard `null`. -/
def parseWindows (data : Option WinJson) : Option ParsedProcess :=
  match data with
  | none => none
  | some j =>
    match winChosen j with
    | none => none
    | some e =>
      let cmdLine := e.CommandLine.getD ""
      match e.ProcessId with
      | none => none
      | some pid =>
        if pid = 0 then none
        else
          match matchTokenWin cmdLine with
          | none => none
          | some tok =>
            some { pid := some pid
                   extensionPort := (matchPort cmdLine).getD 0
                   csrfToken := tok }

/- ───────────────────── Process finder: ports ───────────────────── -/

/-- The dedup loop of `parsePortOutput`: push each regex-extracted port not
already collected (`!ports.includes(p)`). -/
def collectPorts : List Nat → List Nat → List Nat
  | acc, [] => acc
  | acc, p :: ps => collectPorts (if acc.contains p then acc else acc ++ [p]) ps

/-- Stable insertion into an ascending list (elements equal under the
comparator keep their relative order). -/
def insertAsc (a : Nat) : List Nat → List Nat
  | [] => [a]
  | b :: bs => if a ≤ b then a :: b :: bs else b :: insertAsc a bs

/-- Model of `ports.sort((a, b) => a - b)`: JS sort is stable and the
comparator is the numeric order, so stable insertion sort coincides. -/
def sortAsc : List Nat → List Nat
  | [] => []
  | p :: ps => insertAsc p (sortAsc ps)

/-- Source `parsePortOutput`, with the regex extraction abstracted as the
list of matched port numbers in match order: dedup, then numeric sort. -/
def parsePortOutput (matched : List Nat) : List Nat :=
  sortAsc (collectPorts [] matched)

/-- Source `findWorkingPort`: sequentially probe the candidate ports
(`probe` abstracts the awaited `testPort` outcome); first success wins. -/
def findWorkingPort (probe : Nat → Bool) : List Nat → Option Nat
  | [] => none
  | p :: ps => if probe p then some p else findWorkingPort probe ps

/-- The ports `findWorkingPort` actually probes, in order. -/
def probedPorts (probe : Nat → Bool) : List Nat → List Nat
  | [] => []
  | p :: ps => if probe p then [p] else p :: probedPorts probe ps

/-- Source `findAntigravityProcess` after the OS oracles: parsed process
(or `null`), listening ports, probe outcomes. -/
def findAntigravityProcess (parsed : Option ParsedProcess)
    (ports : List Nat) (probe : Nat → Bool) : Option ProcessInfo :=
  match parsed with
  | none => none
  | some pr =>
    if ports.isEmpty then none
    else
      match findWorkingPort probe ports with
      | none => none
      | some p => some { port := p, csrfToken := pr.csrfToken }

/- ───────────────────── Transport model ───────────────────── -/

/-- The two wire schemes. -/
inductive Protocol where
  | http
  | https
deriving Repr, DecidableEq

/-- Outcome of one HTTP(S) request: a response with a status code and the
JSON-parse result of its body (`none` = unparseable), or a network
error/timeout. -/
inductive ReqResult (α : Type) where
  | response (status : Nat) (body : Option α)
  | netError
deriving Repr, DecidableEq

/-- Source `post` (quota fetcher): reject on network error, on
`statusCode >= 400` (a missing status is 0 and falsy, hence not rejected),
or on an unparseable body. -/
def post (send : Protocol → ReqResult α) (p : Protocol) : Except String α :=
  match send p with
  | .netError => .error "network error"
  | .response status body =>
    if status ≥ 400 then .error ("HTTP " ++ toString status)
    else
      match body with
      | some v => .ok v
      | none => .error "Invalid JSON from Antigravity API"

/-- Source `postWithFallback`: try HTTP first, fall back to HTTPS on any
failure. -/
def postWithFallback (send : Protocol → ReqResult α) : Except String α :=
  match post send .http with
  | .ok v => .ok v
  | .error _ => post send .https

/-- The schemes `postWithFallback` attempts, in order. -/
def postAttempts (send : Protocol → ReqResult α) : List Protocol :=
  match post send .http with
  | .ok _ => [.http]
  | .error _ => [.http, .https]

/-- Source `testPort` (process finder): a single `https.request`; true iff
the status is exactly 200 and the body parses as JSON. -/
def testPort (send : Protocol → ReqResult α) : Bool :=
  match send .https with
  | .netError => false
  | .response status body => status == 200 && body.isSome

/-- The schemes `testPort` attempts: always exactly one HTTPS request,
whatever the outcome. -/
def testPortAttempts (_send : Protocol → ReqResult α) : List Protocol :=
  [.https]

/- ───────────────────── Orchestrator (`extension.ts`) ───────────────────── -/

/-- Status-bar outcome of one `refreshQuota` cycle. -/
inductive Display where
  | noConnection
  | updated (snap : QuotaSnapshot)
  | fetchFailed
deriving Repr, DecidableEq

/-- Observable result of one `refreshQuota` cycle: the module state after
the cycle, the rendered display, and the instrumentation trace (which
connection descriptors were passed to `fetchQuota` and how many times
`findAntigravityProcess` ran). -/
structure RefreshOutcome where
  processInfo : Option ProcessInfo
  lastSnapshot : Option QuotaSnapshot
  display : Display
  fetchCalls : List ProcessInfo
  redetectCalls : Nat
deriving Repr, DecidableEq

/-- Source `refreshQuota`: on a fetch failure, exactly one inline
re-detection (`redetect` is the awaited `findAntigravityProcess` result);
a successful re-detection drives one retried fetch with the new
descriptor; a failed one leaves `processInfo = null` and shows the uniform
fetch-failed state. -/
def refreshQuota (pi0 : Option ProcessInfo) (snap0 : Option QuotaSnapshot)
    (fetch : ProcessInfo → Except String QuotaSnapshot)
    (redetect : Option ProcessInfo) : RefreshOutcome :=
  match pi0 with
  | none =>
    { processInfo := none, lastSnapshot := snap0, display := .noConnection
      fetchCalls := [], redetectCalls := 0 }
  | some p =>
    match fetch p with
    | .ok snap =>
      { processInfo := some p, lastSnapshot := some snap
        display := .updated snap, fetchCalls := [p], redetectCalls := 0 }
    | .error _ =>
      match redetect with
      | some p' =>
        match fetch p' with
        | .ok snap =>
          { processInfo := some p', lastSnapshot := some snap
            display := .updated snap, fetchCalls := [p, p'], redetectCalls := 1 }
        | .error _ =>
          { processInfo := some p', lastSnapshot := snap0
            display := .fetchFailed, fetchCalls := [p, p'], redetectCalls := 1 }
      | none =>
        { processInfo := none, lastSnapshot := snap0
          display := .fetchFailed, fetchCalls := [p], redetectCalls := 1 }

/- ───────────────────── Derived raw accessors ───────────────────── -/

/-- The raw entries that carry quota information (the `filter` stage of
`parseResponse`). -/
def quotaEntries (d : ServerResponse) : List RawModel :=
  (d.clientModelConfigs.getD []).filter fun m => m.quotaInfo.isSome

/-- The remaining fraction carried by a raw entry, with the source's `?? 0`
default applied (protobuf JSON omits zero-valued fields). -/
def rawFraction (m : RawModel) : ℚ :=
  ((m.quotaInfo.getD ⟨none, none⟩).remainingFraction).getD 0

/-- The reset instant carried by a raw entry (`none` = invalid/missing). -/
def rawReset (m : RawModel) : Option Int :=
  (m.quotaInfo.getD ⟨none, none⟩).resetTime

/- ───────────────────── Concrete witness inputs ───────────────────── -/

/-- Concrete raw entry at fraction 1/2 resetting at instant 5. -/
def rEx1 : RawModel := ⟨"a", "b", some ⟨some (mkRat 1 2), some 5⟩⟩

/-- Concrete raw entry sharing the same quota pair as `rEx1`. -/
def rEx2 : RawModel := ⟨"c", "d", some ⟨some (mkRat 1 2), some 5⟩⟩

/-- Concrete payload with two models of identical fraction and reset. -/
def dEx : ServerResponse := ⟨none, some [rEx1, rEx2]⟩

/-- The snapshot `parseResponse` computes for `dEx` at time 0. -/
def sEx : QuotaSnapshot :=
  { credits := none
    pools := [{ id := "other"
                displayName := "a"
                remainingPct := 50
                isExhausted := false
                resetTime := some 5
                timeUntilReset := "1m"
                models := [mkModel 0 rEx1, mkModel 0 rEx2] }]
    models := [mkModel 0 rEx1, mkModel 0 rEx2]
    timestamp := 0 }

/-- Concrete raw entry with a quota pair distinct from `rEx1`. -/
def rEx3 : RawModel := ⟨"c", "d", some ⟨some (mkRat 1 4), some 6⟩⟩

/-- Concrete payload with two models in different pools. -/
def dEx9 : ServerResponse := ⟨none, some [rEx1, rEx3]⟩

/-- The snapshot `parseResponse` computes for `dEx9` at time 0. -/
def sEx9 : QuotaSnapshot :=
  { credits := none
    pools := [{ id := "other"
                displayName := "a"
                remainingPct := 50
                isExhausted := false
                resetTime := some 5
                timeUntilReset := "1m"
                models := [mkModel 0 rEx1] },
              { id := "other"
                displayName := "c"
                remainingPct := 25
                isExhausted := false
                resetTime := some 6
                timeUntilReset := "1m"
                models := [mkModel 0 rEx3] }]
    models := [mkModel 0 rEx1, mkModel 0 rEx3]
    timestamp := 0 }

/-- Raw entry with quota information but an invalid reset timestamp. -/
def r10 : RawModel := ⟨"a", "b", some ⟨some 0, none⟩⟩

/-- Payload containing the invalid-reset entry. -/
def d10 : ServerResponse := ⟨none, some [r10]⟩

/-- Concrete claude-family member for the C4 witness. -/
def mq4 : ModelQuota := ⟨"x", "y", "claude", 0, true, some 0, "Now"⟩

/-- Concrete transport oracle: HTTP succeeds with status 200 and parseable
JSON, HTTPS suffers a network error. -/
def sendEx : Protocol → ReqResult Unit := fun pr =>
  match pr with
  | .http => .response 200 (some ())
  | .https => .netError

/-- Concrete Unix process line carrying a port hint but no token. -/
def stdout6 : String :=
  "1234 /opt/antigravity/language_server_linux_x64 --extension_server_port 8080"

/- ───────────────────── Bucket lemmas ───────────────────── -/

/-- Invariant maintained by the bucket map: insertion keys are pairwise
distinct, every member agrees with its bucket key, and buckets are
nonempty. -/
structure BucketsInv (bs : List ((ℚ × Int) × List ModelQuota)) : Prop where
  nodupKeys : (bs.map (·.1)).Nodup
  keyOk : ∀ kl ∈ bs, ∀ x ∈ kl.2, bucketKey x = Except.ok kl.1
  neNil : ∀ kl ∈ bs, kl.2 ≠ []

theorem mem_addToBuckets (bs : List ((ℚ × Int) × List ModelQuota))
    (k : ℚ × Int) (m x : ModelQuota) :
    (∃ kl ∈ addToBuckets bs k m, x ∈ kl.2) ↔ (∃ kl ∈ bs, x ∈ kl.2) ∨ x = m := by
  induction bs with
  | nil => simp [addToBuckets]
  | cons hd tl ih =>
    obtain ⟨k', l⟩ := hd
    by_cases hk : k' = k
    · simp only [addToBuckets, if_pos hk, List.mem_cons]
      constructor
      · rintro ⟨kl, hkl | hkl, hx⟩
        · subst hkl
          rcases List.mem_append.1 hx with hx | hx
          · exact Or.inl ⟨(k', l), Or.inl rfl, hx⟩
          · exact Or.inr (List.mem_singleton.1 hx)
        · exact Or.inl ⟨kl, Or.inr hkl, hx⟩
      · rintro (⟨kl, hkl | hkl, hx⟩ | heq)
        · subst hkl
          exact ⟨(k', l ++ [m]), Or.inl rfl, List.mem_append.2 (Or.inl hx)⟩
        · exact ⟨kl, Or.inr hkl, hx⟩
        · exact ⟨(k', l ++ [m]), Or.inl rfl,
            List.mem_append.2 (Or.inr (by simp [heq]))⟩
    · simp only [addToBuckets, if_neg hk, List.mem_cons]
      constructor
      · rintro ⟨kl, hkl | hkl, hx⟩
        · exact Or.inl ⟨kl, Or.inl hkl, hx⟩
        · rcases (ih).1 ⟨kl, hkl, hx⟩ with ⟨kl', hkl', hx'⟩ | h
          · exact Or.inl ⟨kl', Or.inr hkl', hx'⟩
          · exact Or.inr h
      · rintro (⟨kl, hkl | hkl, hx⟩ | heq)
        · exact ⟨kl, Or.inl hkl, hx⟩
        · obtain ⟨kl', hkl', hx'⟩ := (ih).2 (Or.inl ⟨kl, hkl, hx⟩)
          exact ⟨kl', Or.inr hkl', hx'⟩
        · obtain ⟨kl', hkl', hx'⟩ := (ih).2 (Or.inr heq)
          exact ⟨kl', Or.inr hkl', hx'⟩

theorem addToBuckets_keys (bs : List ((ℚ × Int) × List ModelQuota))
    (k : ℚ × Int) (m : ModelQuota) :
    (addToBuckets bs k m).map (·.1) = bs.map (·.1) ∨
      (k ∉ bs.map (·.1) ∧
        (addToBuckets bs k m).map (·.1) = bs.map (·.1) ++ [k]) := by
  induction bs with
  | nil => exact Or.inr ⟨by simp, by simp [addToBuckets]⟩
  | cons hd tl ih =>
    obtain ⟨k', l⟩ := hd
    by_cases hk : k' = k
    · exact Or.inl (by simp [addToBuckets, hk])
    · rcases ih with h | ⟨hnot, h⟩
      · exact Or.inl (by simp [addToBuckets, hk, h])
      · refine Or.inr ⟨?_, by simp [addToBuckets, hk, h]⟩
        simp only [List.map_cons, List.mem_cons]
        rintro (h' | h')
        · exact hk h'.symm
        · exact hnot h'

theorem bucketsInv_addToBuckets {bs : List ((ℚ × Int) × List ModelQuota)}
    {k : ℚ × Int} {m : ModelQuota} (hinv : BucketsInv bs)
    (hm : bucketKey m = Except.ok k) : BucketsInv (addToBuckets bs k m) := by
  constructor
  · rcases addToBuckets_keys bs k m with h | ⟨hnot, h⟩
    · rw [h]; exact hinv.nodupKeys
    · rw [h]
      exact List.nodup_append.2 ⟨hinv.nodupKeys, List.nodup_singleton k,
        fun a ha hb => hnot (by simpa [List.mem_singleton.1 hb] using ha)⟩
  · intro kl hkl x hx
    induction bs with
    | nil =>
      simp only [addToBuckets, List.mem_singleton] at hkl
      subst hkl
      simp only [List.mem_singleton] at hx
      subst hx
      exact hm
    | cons hd tl ih =>
      obtain ⟨k', l⟩ := hd
      by_cases hk : k' = k
      · simp only [addToBuckets, if_pos hk, List.mem_cons] at hkl
        rcases hkl with rfl | hkl
        · rcases List.mem_append.1 hx with hx | hx
          · exact hinv.keyOk (k', l) (by simp) x hx
          · rw [List.mem_singleton.1 hx, hm, hk]
        · exact hinv.keyOk kl (by simp [hkl]) x hx
      · simp only [addToBuckets, if_neg hk, List.mem_cons] at hkl
        rcases hkl with rfl | hkl
        · exact hinv.keyOk (k', l) (by simp) x hx
        · exact ih ⟨(List.nodup_cons.1 hinv.nodupKeys).2,
            fun kl' hkl' => hinv.keyOk kl' (by simp [hkl']),
            fun kl' hkl' => hinv.neNil kl' (by simp [hkl'])⟩ hkl
  · intro kl hkl
    induction bs with
    | nil =>
      simp only [addToBuckets, List.mem_singleton] at hkl
      subst hkl
      simp
    | cons hd tl ih =>
      obtain ⟨k', l⟩ := hd
      by_cases hk : k' = k
      · simp only [addToBuckets, if_pos hk, List.mem_cons] at hkl
        rcases hkl with rfl | hkl
        · simp
        · exact hinv.neNil kl (by simp [hkl])
      · simp only [addToBuckets, if_neg hk, List.mem_cons] at hkl
        rcases hkl with rfl | hkl
        · exact hinv.neNil (k', l) (by simp)
        · exact ih ⟨(List.nodup_cons.1 hinv.nodupKeys).2,
            fun kl' hkl' => hinv.keyOk kl' (by simp [hkl']),
            fun kl' hkl' => hinv.neNil kl' (by simp [hkl'])⟩ hkl

theorem buildBucketsAux_inv :
    ∀ (ms : List ModelQuota) (bs bs' : List ((ℚ × Int) × List ModelQuota)),
    BucketsInv bs → buildBucketsAux bs ms = Except.ok bs' → BucketsInv bs'
  | [], bs, bs', hinv, h => by
    simp only [buildBucketsAux] at h
    cases h
    exact hinv
  | m :: ms, bs, bs', hinv, h => by
    simp only [buildBucketsAux] at h
    cases hbk : bucketKey m with
    | error e => rw [hbk] at h; cases h
    | ok k =>
      rw [hbk] at h
      exact buildBucketsAux_inv ms _ bs' (bucketsInv_addToBuckets hinv hbk) h

theorem buildBucketsAux_mem :
    ∀ (ms : List ModelQuota) (bs bs' : List ((ℚ × Int) × List ModelQuota))
      (x : ModelQuota), buildBucketsAux bs ms = Except.ok bs' →
    ((∃ kl ∈ bs', x ∈ kl.2) ↔ (∃ kl ∈ bs, x ∈ kl.2) ∨ x ∈ ms)
  | [], bs, bs', x, h => by
    simp only [buildBucketsAux] at h
    cases h
    simp
  | m :: ms, bs, bs', x, h => by
    simp only [buildBucketsAux] at h
    cases hbk : bucketKey m with
    | error e => rw [hbk] at h; cases h
    | ok k =>
      rw [hbk] at h
      rw [buildBucketsAux_mem ms _ bs' x h, mem_addToBuckets]
      simp only [List.mem_cons]
      exact or_assoc

theorem buildBuckets_inv {ms : List ModelQuota}
    {bs : List ((ℚ × Int) × List ModelQuota)}
    (h : buildBuckets ms = Except.ok bs) : BucketsInv bs :=
  buildBucketsAux_inv ms [] bs ⟨List.nodup_nil, by simp, by simp⟩ h

theorem buildBuckets_mem {ms : List ModelQuota}
    {bs : List ((ℚ × Int) × List ModelQuota)}
    (h : buildBuckets ms = Except.ok bs) (x : ModelQuota) :
    (∃ kl ∈ bs, x ∈ kl.2) ↔ x ∈ ms := by
  rw [buildBucketsAux_mem ms [] bs x h]
  simp

theorem bucketKey_eq_ok_iff (m : ModelQuota) (k : ℚ × Int) :
    bucketKey m = Except.ok k ↔
      m.resetTime = some k.2 ∧ m.remainingPct = k.1 := by
  cases hr : m.resetTime with
  | none => simp [bucketKey, hr]
  | some t =>
    simp only [bucketKey, hr, Except.ok.injEq, Option.some.injEq, Prod.ext_iff]
    tauto

theorem sameBucket_iff_key {ms : List ModelQuota}
    {bs : List ((ℚ × Int) × List ModelQuota)}
    (h : buildBuckets ms = Except.ok bs) {x y : ModelQuota}
    (hx : x ∈ ms) (hy : y ∈ ms) :
    (∃ kl ∈ bs, x ∈ kl.2 ∧ y ∈ kl.2) ↔ bucketKey x = bucketKey y := by
  have hinv := buildBuckets_inv h
  constructor
  · rintro ⟨kl, hkl, hxm, hym⟩
    rw [hinv.keyOk kl hkl x hxm, hinv.keyOk kl hkl y hym]
  · intro hkey
    obtain ⟨klx, hklx, hxm⟩ := (buildBuckets_mem h x).2 hx
    obtain ⟨kly, hkly, hym⟩ := (buildBuckets_mem h y).2 hy
    have hkx := hinv.keyOk klx hklx x hxm
    have hky := hinv.keyOk kly hkly y hym
    have : klx.1 = kly.1 := by
      have := hkx.symm.trans (hkey.trans hky)
      exact Except.ok.inj this
    have hkl : klx = kly :=
      List.inj_on_of_nodup_map hinv.nodupKeys hklx hkly this
    exact ⟨klx, hklx, hxm, hkl ▸ hym⟩

/- ───────────────────── Pool construction lemmas ───────────────────── -/

theorem insertRanked_perm (a : List ModelQuota) (l : List (List ModelQuota)) :
    List.Perm (insertRanked a l) (a :: l) := by
  induction l with
  | nil => simp [insertRanked]
  | cons b bs ih =>
    simp only [insertRanked]
    by_cases hc : bucketRank a ≤ bucketRank b
    · rw [if_pos hc]
    · rw [if_neg hc]
      exact (List.Perm.cons b ih).trans (List.Perm.swap a b bs)

theorem sortBuckets_perm (l : List (List ModelQuota)) :
    List.Perm (sortBuckets l) l := by
  induction l with
  | nil => simp [sortBuckets]
  | cons b bs ih =>
    exact (insertRanked_perm b (sortBuckets bs)).trans (List.Perm.cons b ih)

theorem mkPool_models {l : List ModelQuota} {p : QuotaPool}
    (h : mkPool l = some p) : p.models = l := by
  cases l with
  | nil => simp [mkPool] at h
  | cons m ms =>
    simp only [mkPool, Option.some.injEq] at h
    rw [← h]

theorem mkPool_isSome {l : List ModelQuota} (h : l ≠ []) :
    ∃ p, mkPool l = some p ∧ p.models = l := by
  cases l with
  | nil => exact absurd rfl h
  | cons m ms => exact ⟨_, rfl, rfl⟩

theorem mem_pools_iff (bs : List ((ℚ × Int) × List ModelQuota))
    (p : QuotaPool) :
    p ∈ (sortBuckets (bs.map (·.2))).filterMap mkPool ↔
      ∃ kl ∈ bs, mkPool kl.2 = some p := by
  rw [List.mem_filterMap]
  constructor
  · rintro ⟨l, hl, hp⟩
    have : l ∈ bs.map (·.2) := (sortBuckets_perm _).mem_iff.1 hl
    obtain ⟨kl, hkl, rfl⟩ := List.mem_map.1 this
    exact ⟨kl, hkl, hp⟩
  · rintro ⟨kl, hkl, hp⟩
    exact ⟨kl.2, (sortBuckets_perm _).mem_iff.2 (List.mem_map_of_mem _ hkl), hp⟩

theorem pools_pair_iff (bs : List ((ℚ × Int) × List ModelQuota))
    (hne : ∀ kl ∈ bs, kl.2 ≠ []) (x y : ModelQuota) :
    (∃ p ∈ (sortBuckets (bs.map (·.2))).filterMap mkPool,
        x ∈ p.models ∧ y ∈ p.models) ↔
      ∃ kl ∈ bs, x ∈ kl.2 ∧ y ∈ kl.2 := by
  constructor
  · rintro ⟨p, hp, hx, hy⟩
    obtain ⟨kl, hkl, hmk⟩ := (mem_pools_iff bs p).1 hp
    have hm := mkPool_models hmk
    exact ⟨kl, hkl, hm ▸ hx, hm ▸ hy⟩
  · rintro ⟨kl, hkl, hx, hy⟩
    obtain ⟨p, hmk, hm⟩ := mkPool_isSome (hne kl hkl)
    exact ⟨p, (mem_pools_iff bs p).2 ⟨kl, hkl, hmk⟩, hm ▸ hx, hm ▸ hy⟩

/- ───────────────────── parseResponse elimination ───────────────────── -/

theorem parseResponse_ok_elim {d : ServerResponse} {now : Int}
    {s : QuotaSnapshot} (h : parseResponse d now = Except.ok s) :
    ∃ bs, buildBuckets (parseModels (d.clientModelConfigs.getD []) now) =
        Except.ok bs ∧
      s.models = parseModels (d.clientModelConfigs.getD []) now ∧
      s.pools = (sortBuckets (bs.map (·.2))).filterMap mkPool := by
  unfold parseResponse at h
  cases hb : buildBuckets (parseModels (d.clientModelConfigs.getD []) now) with
  | error e => rw [hb] at h; cases h
  | ok bs =>
    rw [hb] at h
    refine ⟨bs, rfl, ?_, ?_⟩
    · cases h; rfl
    · cases h; rfl

/- ───────────────────── Glue lemmas ───────────────────── -/

theorem getD_mem_of_lt {α : Type} (l : List α) (i : Nat) (d : α)
    (h : i < l.length) : l.getD i d ∈ l := by
  rw [List.getD_eq_getElem l d h]
  exact List.getElem_mem h

theorem parseModels_eq_quotaEntries (d : ServerResponse) (now : Int) :
    parseModels (d.clientModelConfigs.getD []) now =
      (quotaEntries d).map (mkModel now) := rfl

theorem mkModel_resetTime (now : Int) (r : RawModel) :
    (mkModel now r).resetTime = rawReset r := rfl

theorem mkModel_remainingPct (now : Int) (r : RawModel) :
    (mkModel now r).remainingPct = rawFraction r * 100 := rfl

theorem bucketKey_mkModel (now : Int) (r : RawModel) (t : Int)
    (h : rawReset r = some t) :
    bucketKey (mkModel now r) = Except.ok (rawFraction r * 100, t) := by
  unfold bucketKey
  rw [mkModel_resetTime, h]
  rfl

theorem key_eq_iff_raw (now : Int) (r1 r2 : RawModel) (t1 t2 : Int)
    (h1 : rawReset r1 = some t1) (h2 : rawReset r2 = some t2) :
    bucketKey (mkModel now r1) = bucketKey (mkModel now r2) ↔
      (rawFraction r1 = rawFraction r2 ∧ rawReset r1 = rawReset r2) := by
  rw [bucketKey_mkModel now r1 t1 h1, bucketKey_mkModel now r2 t2 h2, h1, h2]
  simp only [Except.ok.injEq, Prod.mk.injEq, Option.some.injEq]
  rw [mul_left_inj' (by norm_num : (100 : ℚ) ≠ 0)]

theorem models_reset_isSome {ms : List ModelQuota}
    {bs : List ((ℚ × Int) × List ModelQuota)}
    (h : buildBuckets ms = Except.ok bs) {x : ModelQuota} (hx : x ∈ ms) :
    ∃ t, x.resetTime = some t := by
  obtain ⟨kl, hkl, hxm⟩ := (buildBuckets_mem h x).2 hx
  have hk := (buildBuckets_inv h).keyOk kl hkl x hxm
  rw [bucketKey_eq_ok_iff] at hk
  exact ⟨kl.1.2, hk.1⟩

/- ───────────────────── Claim C1 ───────────────────── -/

/-- C1: when `parseResponse` yields a snapshot, two parsed models are placed
in the same pool if and only if their raw entries carry the identical
remaining fraction (with the source's `?? 0` default) and the identical
reset instant; consequently all members of any pool share the identical
`(remainingPct, resetTime)` pair. -/
theorem claim1_pool_iff_fraction_reset (d : ServerResponse) (now : Int)
    (s : QuotaSnapshot) (h : parseResponse d now = Except.ok s) :
    (∀ i j, i < (quotaEntries d).length → j < (quotaEntries d).length →
      ((∃ p ∈ s.pools,
          mkModel now ((quotaEntries d).getD i rawDefault) ∈ p.models ∧
          mkModel now ((quotaEntries d).getD j rawDefault) ∈ p.models) ↔
        (rawFraction ((quotaEntries d).getD i rawDefault) =
            rawFraction ((quotaEntries d).getD j rawDefault) ∧
          rawReset ((quotaEntries d).getD i rawDefault) =
            rawReset ((quotaEntries d).getD j rawDefault)))) ∧
    (∀ p ∈ s.pools, ∀ m1 ∈ p.models, ∀ m2 ∈ p.models,
      m1.remainingPct = m2.remainingPct ∧ m1.resetTime = m2.resetTime) := by
  obtain ⟨bs, hb, hmodels, hpools⟩ := parseResponse_ok_elim h
  have hinv := buildBuckets_inv hb
  constructor
  · intro i j hi hj
    have hmi : mkModel now ((quotaEntries d).getD i rawDefault) ∈
        parseModels (d.clientModelConfigs.getD []) now := by
      rw [parseModels_eq_quotaEntries]
      exact List.mem_map_of_mem _ (getD_mem_of_lt _ i rawDefault hi)
    have hmj : mkModel now ((quotaEntries d).getD j rawDefault) ∈
        parseModels (d.clientModelConfigs.getD []) now := by
      rw [parseModels_eq_quotaEntries]
      exact List.mem_map_of_mem _ (getD_mem_of_lt _ j rawDefault hj)
    rw [hpools, pools_pair_iff bs hinv.neNil, sameBucket_iff_key hb hmi hmj]
    obtain ⟨t1, ht1⟩ := models_reset_isSome hb hmi
    obtain ⟨t2, ht2⟩ := models_reset_isSome hb hmj
    rw [mkModel_resetTime] at ht1 ht2
    exact key_eq_iff_raw now _ _ t1 t2 ht1 ht2
  · intro p hp m1 hm1 m2 hm2
    rw [hpools, mem_pools_iff] at hp
    obtain ⟨kl, hkl, hmk⟩ := hp
    have hm := mkPool_models hmk
    have h1 := hinv.keyOk kl hkl m1 (hm ▸ hm1)
    have h2 := hinv.keyOk kl hkl m2 (hm ▸ hm2)
    rw [bucketKey_eq_ok_iff] at h1 h2
    exact ⟨h1.2.trans h2.2.symm, h1.1.trans h2.1.symm⟩

/-- Witness for C1: on the concrete payload the two models with identical
raw fraction and reset share a pool. -/
theorem claim1_witness :
    ∃ p ∈ sEx.pools, mkModel 0 rEx1 ∈ p.models ∧ mkModel 0 rEx2 ∈ p.models := by
  have h : parseResponse dEx 0 = Except.ok sEx := by with_unfolding_all rfl
  exact ((claim1_pool_iff_fraction_reset dEx 0 sEx h).1 0 1 (by decide)
    (by decide)).mpr (by with_unfolding_all decide)

/- ───────────────────── Claim C9 ───────────────────── -/

/-- C9: when `parseResponse` yields a snapshot, the pools partition the flat
model list — every parsed model belongs to exactly one pool, and every pool
member comes from the flat model list. -/
theorem claim9_pools_partition_models (d : ServerResponse) (now : Int)
    (s : QuotaSnapshot) (h : parseResponse d now = Except.ok s) :
    (∀ m ∈ s.models, ∃! p, p ∈ s.pools ∧ m ∈ p.models) ∧
    (∀ p ∈ s.pools, ∀ m ∈ p.models, m ∈ s.models) := by
  obtain ⟨bs, hb, hmodels, hpools⟩ := parseResponse_ok_elim h
  have hinv := buildBuckets_inv hb
  constructor
  · intro m hm
    rw [hmodels] at hm
    obtain ⟨kl, hkl, hmk⟩ := (buildBuckets_mem hb m).2 hm
    obtain ⟨p, hp, hpm⟩ := mkPool_isSome (hinv.neNil kl hkl)
    refine ⟨p, ⟨?_, hpm ▸ hmk⟩, ?_⟩
    · rw [hpools]
      exact (mem_pools_iff bs p).2 ⟨kl, hkl, hp⟩
    · rintro q ⟨hq, hmq⟩
      rw [hpools, mem_pools_iff] at hq
      obtain ⟨kl', hkl', hmk'⟩ := hq
      have hqm := mkPool_models hmk'
      have hkey := hinv.keyOk kl' hkl' m (hqm ▸ hmq)
      have hkey' := hinv.keyOk kl hkl m hmk
      have : kl'.1 = kl.1 := Except.ok.inj (hkey.symm.trans hkey')
      have hkleq : kl' = kl :=
        List.inj_on_of_nodup_map hinv.nodupKeys hkl' hkl this
      rw [hkleq] at hmk'
      exact Option.some.inj (hmk'.symm.trans hp)
  · intro p hp m hm
    rw [hpools, mem_pools_iff] at hp
    obtain ⟨kl, hkl, hmk⟩ := hp
    have hpm := mkPool_models hmk
    rw [hmodels]
    exact (buildBuckets_mem hb m).1 ⟨kl, hkl, hpm ▸ hm⟩

/-- Witness for C9: on the concrete payload the first parsed model belongs
to exactly one pool of the snapshot. -/
theorem claim9_witness :
    ∃! p, p ∈ sEx9.pools ∧ mkModel 0 rEx1 ∈ p.models := by
  have h : parseResponse dEx9 0 = Except.ok sEx9 := by with_unfolding_all rfl
  exact (claim9_pools_partition_models dEx9 0 sEx9 h).1 (mkModel 0 rEx1)
    (by simp [sEx9])

/- ───────────────────── Claim C2 ───────────────────── -/

/-- C2: for a raw entry carrying quota information whose (defaulted)
remaining fraction lies in the wire schema's range [0,1], the parsed model
satisfies remainingPct = fraction × 100 with remainingPct in [0,100], and
isExhausted holds iff the fraction is exactly zero. -/
theorem claim2_pct_and_exhausted (now : Int) (m : RawModel)
    (qi : RawQuotaInfo) (hq : m.quotaInfo = some qi)
    (h0 : 0 ≤ qi.remainingFraction.getD 0)
    (h1 : qi.remainingFraction.getD 0 ≤ 1) :
    (mkModel now m).remainingPct = qi.remainingFraction.getD 0 * 100 ∧
    0 ≤ (mkModel now m).remainingPct ∧ (mkModel now m).remainingPct ≤ 100 ∧
    ((mkModel now m).isExhausted = true ↔ qi.remainingFraction.getD 0 = 0) := by
  have hpct : (mkModel now m).remainingPct =
      qi.remainingFraction.getD 0 * 100 := by
    rw [mkModel_remainingPct]
    unfold rawFraction
    rw [hq]
    rfl
  refine ⟨hpct, ?_, ?_, ?_⟩
  · rw [hpct]
    positivity
  · rw [hpct]
    nlinarith
  · have hex : (mkModel now m).isExhausted =
        decide (qi.remainingFraction.getD 0 = 0) := by
      simp [mkModel, hq]
    rw [hex, decide_eq_true_iff]

/-- Witness for C2 on the concrete entry `rEx1` (fraction 1/2). -/
theorem claim2_witness :
    (mkModel 0 rEx1).remainingPct = mkRat 1 2 * 100 ∧
    0 ≤ (mkModel 0 rEx1).remainingPct ∧
    (mkModel 0 rEx1).remainingPct ≤ 100 ∧
    ((mkModel 0 rEx1).isExhausted = true ↔ mkRat 1 2 = 0) :=
  claim2_pct_and_exhausted 0 rEx1 ⟨some (mkRat 1 2), some 5⟩ rfl
    (by with_unfolding_all decide) (by with_unfolding_all decide)

/- ───────────────────── Claim C3 ───────────────────── -/

/-- C3 counterexample: 3,540,001 ms (59 minutes and 1 millisecond) is a
duration strictly below one hour, yet `formatTime` renders it "1h 0m"
rather than a whole-minute form ("60m" is what rounding the minutes up
would give), because the source branches on the rounded-up minute count,
not on the raw duration. -/
theorem claim3_counterexample :
    (0 : Int) < 3540001 ∧ (3540001 : Int) < 3600000 ∧
    formatTime 3540001 = "1h 0m" ∧ formatTime 3540001 ≠ "60m" := by
  decide

/-- C3 (amended): `formatTime` branches on the rounded-up minute count
mins = ⌈ms/60000⌉: non-positive durations render "Now"; mins < 60 renders
whole minutes "Nm"; 60 ≤ mins with h = ⌊mins/60⌋ < 24 renders "Hh Mm";
h ≥ 24 renders "Dd Hh", omitting the hour component when h is a multiple
of 24 — and the five fixed inputs render "Now", "5m", "2h 5m", "1d 2h" and
"1d" respectively. -/
theorem claim3_formatTime_amended (ms : Int) :
    (ms ≤ 0 → formatTime ms = "Now") ∧
    (0 < ms → ms ≤ 3540000 →
      formatTime ms = toString ((ms.toNat + 59999) / 60000) ++ "m") ∧
    (3540000 < ms → ms ≤ 86340000 →
      formatTime ms =
        toString ((ms.toNat + 59999) / 60000 / 60) ++ "h " ++
        toString ((ms.toNat + 59999) / 60000 % 60) ++ "m") ∧
    (86340000 < ms →
      ((((ms.toNat + 59999) / 60000 / 60) % 24 = 0 →
          formatTime ms =
            toString ((ms.toNat + 59999) / 60000 / 60 / 24) ++ "d") ∧
        (((ms.toNat + 59999) / 60000 / 60) % 24 ≠ 0 →
          formatTime ms =
            toString ((ms.toNat + 59999) / 60000 / 60 / 24) ++ "d " ++
            toString (((ms.toNat + 59999) / 60000 / 60) % 24) ++ "h"))) ∧
    (formatTime 0 = "Now" ∧ formatTime 300000 = "5m" ∧
      formatTime 7500000 = "2h 5m" ∧ formatTime 93600000 = "1d 2h" ∧
      formatTime 86400000 = "1d") := by
  refine ⟨?_, ?_, ?_, ?_, by decide⟩
  · intro h
    simp only [formatTime]
    rw [if_pos h]
  · intro h0 h1
    simp only [formatTime]
    rw [if_neg (by omega), if_pos (by omega)]
  · intro h0 h1
    simp only [formatTime]
    rw [if_neg (by omega), if_neg (by omega), if_neg (by omega)]
  · intro h0
    constructor
    · intro hrem
      simp only [formatTime]
      rw [if_neg (by omega), if_neg (by omega), if_pos (by omega),
        if_neg (by omega)]
    · intro hrem
      simp only [formatTime]
      rw [if_neg (by omega), if_neg (by omega), if_pos (by omega),
        if_pos (by omega)]

/-- Witness for C3 (amended) at 300,000 ms, discharging the positivity and
sub-hour hypotheses. -/
theorem claim3_witness :
    formatTime 300000 =
      toString (((300000 : Int).toNat + 59999) / 60000) ++ "m" :=
  (claim3_formatTime_amended 300000).2.1 (by decide) (by decide)

/- ───────────────────── Claim C10 ───────────────────── -/

theorem buildBucketsAux_error_of_invalid :
    ∀ (ms : List ModelQuota) (bs : List ((ℚ × Int) × List ModelQuota)),
    (∃ x ∈ ms, x.resetTime = (none : Option Int)) →
    buildBucketsAux bs ms = Except.error "Invalid time value"
  | [], _, h => by simp at h
  | m :: ms, bs, h => by
    cases hr : m.resetTime with
    | none =>
      have hk : bucketKey m = Except.error "Invalid time value" := by
        unfold bucketKey
        rw [hr]
      simp only [buildBucketsAux, hk]
    | some t =>
      have hk : bucketKey m = Except.ok (m.remainingPct, t) := by
        unfold bucketKey
        rw [hr]
      simp only [buildBucketsAux, hk]
      refine buildBucketsAux_error_of_invalid ms _ ?_
      obtain ⟨x, hx, hxr⟩ := h
      rcases List.mem_cons.1 hx with rfl | hx
      · rw [hr] at hxr
        cases hxr
      · exact ⟨x, hx, hxr⟩

/-- C10: a payload containing a quota-carrying entry whose reset timestamp
is missing or unparseable makes the bucket-key serialization throw, so
`parseResponse` (and with it `fetchQuota`) rejects with the thrown
`Invalid time value` error instead of producing a snapshot. -/
theorem claim10_invalid_reset_rejects (d : ServerResponse) (now : Int)
    (hm : ∃ m ∈ d.clientModelConfigs.getD [], ∃ qi,
      m.quotaInfo = some qi ∧ qi.resetTime = none) :
    parseResponse d now = Except.error "Invalid time value" := by
  obtain ⟨m, hmem, qi, hq, hr⟩ := hm
  have hx : ∃ x ∈ parseModels (d.clientModelConfigs.getD []) now,
      x.resetTime = (none : Option Int) := by
    refine ⟨mkModel now m, ?_, ?_⟩
    · rw [parseModels_eq_quotaEntries]
      refine List.mem_map_of_mem _ ?_
      exact List.mem_filter.2 ⟨hmem, by simp [hq]⟩
    · rw [mkModel_resetTime]
      unfold rawReset
      rw [hq]
      exact hr
  unfold parseResponse
  rw [show buildBuckets (parseModels (d.clientModelConfigs.getD []) now) =
      Except.error "Invalid time value" from
    buildBucketsAux_error_of_invalid _ [] hx]

/-- Witness for C10 on the concrete invalid-reset payload. -/
theorem claim10_witness :
    parseResponse d10 0 = Except.error "Invalid time value" :=
  claim10_invalid_reset_rejects d10 0
    ⟨r10, by simp [d10], ⟨some 0, none⟩, rfl, rfl⟩

/- ───────────────────── Claim C4 ───────────────────── -/

/-- C4: `derivePoolName` follows the stated priority over the member
families: both gemini and gemini_flash → id "gemini"/name "Gemini"; only
gemini → "gemini_pro"/"Gem Pro"; only gemini_flash →
"gemini_flash"/"Gem Flash"; otherwise any claude or gpt member → name
"Claude" (id "claude_gpt"); otherwise the first member's own label. -/
theorem claim4_pool_naming (ms : List ModelQuota) :
    ((ms.map (·.family)).contains "gemini" = true →
      (ms.map (·.family)).contains "gemini_flash" = true →
      derivePoolName ms = ("gemini", "Gemini")) ∧
    ((ms.map (·.family)).contains "gemini" = true →
      (ms.map (·.family)).contains "gemini_flash" = false →
      derivePoolName ms = ("gemini_pro", "Gem Pro")) ∧
    ((ms.map (·.family)).contains "gemini" = false →
      (ms.map (·.family)).contains "gemini_flash" = true →
      derivePoolName ms = ("gemini_flash", "Gem Flash")) ∧
    ((ms.map (·.family)).contains "gemini" = false →
      (ms.map (·.family)).contains "gemini_flash" = false →
      ((ms.map (·.family)).contains "claude" = true ∨
        (ms.map (·.family)).contains "gpt" = true) →
      derivePoolName ms = ("claude_gpt", "Claude")) ∧
    (∀ m0 tl, ms = m0 :: tl →
      (ms.map (·.family)).contains "gemini" = false →
      (ms.map (·.family)).contains "gemini_flash" = false →
      (ms.map (·.family)).contains "claude" = false →
      (ms.map (·.family)).contains "gpt" = false →
      m0.label ≠ "" →
      derivePoolName ms = ("other", m0.label)) := by
  refine ⟨?_, ?_, ?_, ?_, ?_⟩
  · intro h1 h2
    simp only [derivePoolName, h1, h2]
    rfl
  · intro h1 h2
    simp only [derivePoolName, h1, h2]
    rfl
  · intro h1 h2
    simp only [derivePoolName, h1, h2]
    rfl
  · intro h1 h2 h3
    rcases h3 with h3 | h3 <;> simp only [derivePoolName, h1, h2, h3] <;> simp
  · rintro m0 tl rfl h1 h2 h3 h4 h5
    simp only [derivePoolName, h1, h2, h3, h4]
    simp [h5]

/-- Witness for C4: a bucket containing only a claude member is named
"Claude" with id "claude_gpt". -/
theorem claim4_witness : derivePoolName [mq4] = ("claude_gpt", "Claude") :=
  (claim4_pool_naming [mq4]).2.2.2.1 (by decide) (by decide)
    (Or.inl (by decide))

/- ───────────────────── Claim C7 ───────────────────── -/

/-- C7: on a fetch failure the poll cycle performs exactly one re-detection;
a successful re-detection drives the single retried fetch with the new
descriptor; a failed one ends the cycle in the uniform fetch-failed display
with no process-found state retained. -/
theorem claim7_redetect_once (p : ProcessInfo) (snap0 : Option QuotaSnapshot)
    (fetch : ProcessInfo → Except String QuotaSnapshot)
    (redetect : Option ProcessInfo) (e : String) (hf : fetch p = .error e) :
    (refreshQuota (some p) snap0 fetch redetect).redetectCalls = 1 ∧
    (∀ p', redetect = some p' →
      (refreshQuota (some p) snap0 fetch redetect).fetchCalls = [p, p']) ∧
    (redetect = none →
      (refreshQuota (some p) snap0 fetch redetect).display = .fetchFailed ∧
      (refreshQuota (some p) snap0 fetch redetect).processInfo = none ∧
      (refreshQuota (some p) snap0 fetch redetect).fetchCalls = [p]) := by
  refine ⟨?_, ?_, ?_⟩
  · simp only [refreshQuota, hf]
    cases redetect with
    | none => rfl
    | some p' => cases hf2 : fetch p' <;> simp [hf2]
  · rintro p' rfl
    simp only [refreshQuota, hf]
    cases hf2 : fetch p' <;> simp [hf2]
  · rintro rfl
    simp [refreshQuota, hf]

/-- Witness for C7: with a fetch that always fails and a failing
re-detection, the cycle re-detects once, shows the fetch-failed state and
retains no process info. -/
theorem claim7_witness :
    (refreshQuota (some ⟨1, "t"⟩) none
        (fun _ => Except.error "x") none).redetectCalls = 1 ∧
    (refreshQuota (some ⟨1, "t"⟩) none
        (fun _ => Except.error "x") none).display = Display.fetchFailed ∧
    (refreshQuota (some ⟨1, "t"⟩) none
        (fun _ => Except.error "x") none).processInfo = none := by
  have h := claim7_redetect_once ⟨1, "t"⟩ none
    (fun _ => Except.error "x") none "x" rfl
  exact ⟨h.1, (h.2.2 rfl).1, (h.2.2 rfl).2.1⟩

/- ───────────────────── Claim C8 ───────────────────── -/

/-- C8 counterexample: with HTTPS down and HTTP up, the port-verification
probe fails after its single HTTPS attempt and never retries with the other
scheme, refuting the claim that every network call falls back. -/
theorem claim8_counterexample :
    testPort sendEx = false ∧ testPortAttempts sendEx = [Protocol.https] ∧
    post sendEx Protocol.http = Except.ok () :=
  ⟨rfl, rfl, rfl⟩

/-- C8 (amended): the status calls made through `postWithFallback` try
plaintext HTTP first and on any failure silently retry exactly once with
HTTPS, while the port-verification probe `testPort` performs a single HTTPS
request and never falls back to the other scheme. -/
theorem claim8_transport_fallback {α : Type} (send : Protocol → ReqResult α) :
    (∀ v, post send Protocol.http = Except.ok v →
      postWithFallback send = Except.ok v ∧
        postAttempts send = [Protocol.http]) ∧
    (∀ e, post send Protocol.http = Except.error e →
      postWithFallback send = post send Protocol.https ∧
        postAttempts send = [Protocol.http, Protocol.https]) ∧
    testPortAttempts send = [Protocol.https] := by
  refine ⟨?_, ?_, rfl⟩
  · intro v hv
    unfold postWithFallback postAttempts
    rw [hv]
    exact ⟨rfl, rfl⟩
  · intro e he
    unfold postWithFallback postAttempts
    rw [he]
    exact ⟨rfl, rfl⟩

/-- Witness for C8 (amended): on the concrete oracle the fallback carrier
returns the successful HTTP result after a single attempt. -/
theorem claim8_witness :
    postWithFallback sendEx = Except.ok () ∧
      postAttempts sendEx = [Protocol.http] :=
  (claim8_transport_fallback sendEx).1 () rfl

/- ───────────────────── Claim C5 ───────────────────── -/

theorem mem_insertAsc (a x : Nat) (l : List Nat) :
    x ∈ insertAsc a l ↔ x = a ∨ x ∈ l := by
  induction l with
  | nil => simp [insertAsc]
  | cons b bs ih =>
    simp only [insertAsc]
    by_cases hc : a ≤ b
    · simp [if_pos hc]
    · simp only [if_neg hc, List.mem_cons, ih]
      tauto

theorem sorted_insertAsc (a : Nat) (l : List Nat)
    (h : List.Pairwise (· ≤ ·) l) :
    List.Pairwise (· ≤ ·) (insertAsc a l) := by
  induction l with
  | nil => simp [insertAsc]
  | cons b bs ih =>
    simp only [insertAsc]
    rcases List.pairwise_cons.1 h with ⟨hb, hbs⟩
    by_cases hc : a ≤ b
    · rw [if_pos hc]
      exact List.pairwise_cons.2 ⟨by
        intro x hx
        rcases List.mem_cons.1 hx with rfl | hx
        · exact hc
        · exact le_trans hc (hb x hx), h⟩
    · rw [if_neg hc]
      refine List.pairwise_cons.2 ⟨?_, ih hbs⟩
      intro x hx
      rcases (mem_insertAsc a x bs).1 hx with rfl | hx
      · exact le_of_not_le hc
      · exact hb x hx

theorem sorted_sortAsc (l : List Nat) :
    List.Pairwise (· ≤ ·) (sortAsc l) := by
  induction l with
  | nil => simp [sortAsc]
  | cons p ps ih => exact sorted_insertAsc p (sortAsc ps) ih

theorem mem_sortAsc (x : Nat) (l : List Nat) : x ∈ sortAsc l ↔ x ∈ l := by
  induction l with
  | nil => simp [sortAsc]
  | cons p ps ih =>
    simp only [sortAsc, mem_insertAsc, List.mem_cons, ih]

theorem mem_collectPorts :
    ∀ (l acc : List Nat) (x : Nat),
    x ∈ collectPorts acc l ↔ x ∈ acc ∨ x ∈ l
  | [], acc, x => by simp [collectPorts]
  | p :: ps, acc, x => by
    simp only [collectPorts]
    by_cases hc : acc.contains p
    · rw [if_pos hc, mem_collectPorts ps acc x]
      simp only [List.mem_cons]
      constructor
      · rintro (h | h)
        · exact Or.inl h
        · exact Or.inr (Or.inr h)
      · rintro (h | rfl | h)
        · exact Or.inl h
        · exact Or.inl (by simpa using hc)
        · exact Or.inr h
    · rw [if_neg hc, mem_collectPorts ps (acc ++ [p]) x]
      simp only [List.mem_append, List.mem_singleton, List.mem_cons]
      tauto

theorem findWorkingPort_first_success (probe : Nat → Bool) :
    ∀ (ps : List Nat) (k : Nat), k < ps.length →
    (∀ i, i < k → probe (ps.getD i 0) = false) →
    probe (ps.getD k 0) = true →
    findWorkingPort probe ps = some (ps.getD k 0) ∧
    probedPorts probe ps = ps.take (k + 1)
  | [], k, hk, _, _ => absurd hk (by simp)
  | p :: ps, 0, hk, hbefore, hsucc => by
    simp only [List.getD_cons_zero] at hsucc ⊢
    simp [findWorkingPort, probedPorts, hsucc]
  | p :: ps, k + 1, hk, hbefore, hsucc => by
    have hp : probe p = false := by
      have := hbefore 0 (Nat.succ_pos k)
      simpa using this
    have ih := findWorkingPort_first_success probe ps k (by simpa using hk)
      (fun i hi => by
        have := hbefore (i + 1) (by omega)
        simpa using this)
      (by simpa using hsucc)
    simp only [List.getD_cons_succ, findWorkingPort, probedPorts, hp,
      Bool.false_eq_true, if_false, List.take, ih.1, ih.2]
    exact ⟨trivial, trivial⟩

/-- C5: the locator sorts the deduplicated candidate ports in ascending
numeric order (preserving the candidate set) and probes them sequentially;
whenever position k holds the first port whose probe answers 200 with
parseable JSON, `findWorkingPort` returns exactly that port, the probed
ports are exactly the first k+1 candidates, and `findAntigravityProcess`
returns that port paired with the parsed token. -/
theorem claim5_port_probe_order (matched : List Nat) (probe : Nat → Bool) :
    List.Pairwise (· ≤ ·) (parsePortOutput matched) ∧
    (∀ x, x ∈ parsePortOutput matched ↔ x ∈ matched) ∧
    (∀ k, k < (parsePortOutput matched).length →
      (∀ i, i < k → probe ((parsePortOutput matched).getD i 0) = false) →
      probe ((parsePortOutput matched).getD k 0) = true →
      findWorkingPort probe (parsePortOutput matched) =
          some ((parsePortOutput matched).getD k 0) ∧
        probedPorts probe (parsePortOutput matched) =
          (parsePortOutput matched).take (k + 1) ∧
        ∀ pr : ParsedProcess,
          findAntigravityProcess (some pr) (parsePortOutput matched) probe =
            some ⟨(parsePortOutput matched).getD k 0, pr.csrfToken⟩) := by
  refine ⟨sorted_sortAsc _, ?_, ?_⟩
  · intro x
    rw [parsePortOutput, mem_sortAsc, mem_collectPorts]
    simp
  · intro k hk hbefore hsucc
    have h := findWorkingPort_first_success probe (parsePortOutput matched) k
      hk hbefore hsucc
    refine ⟨h.1, h.2, ?_⟩
    intro pr
    have hne : (parsePortOutput matched).isEmpty = false := by
      cases hl : parsePortOutput matched with
      | nil => rw [hl] at hk; simp at hk
      | cons a as => rfl
    simp only [findAntigravityProcess, hne, Bool.false_eq_true, if_false,
      h.1]

/-- Witness for C5 on candidates [3,1,2,3] with only port 2 answering: the
sorted candidates are probed in order and port 2 (position 1) is returned
after probing exactly [1, 2]. -/
theorem claim5_witness :
    List.Pairwise (· ≤ ·) (parsePortOutput [3, 1, 2, 3]) ∧
    findWorkingPort (fun p => decide (p = 2)) (parsePortOutput [3, 1, 2, 3]) =
      some ((parsePortOutput [3, 1, 2, 3]).getD 1 0) ∧
    probedPorts (fun p => decide (p = 2)) (parsePortOutput [3, 1, 2, 3]) =
      (parsePortOutput [3, 1, 2, 3]).take 2 := by
  have h := claim5_port_probe_order [3, 1, 2, 3] (fun p => decide (p = 2))
  have h2 := h.2.2 1 (by decide) (by decide) (by decide)
  exact ⟨h.1, h2.1, h2.2.1⟩

/- ───────────────────── Claim C6 ───────────────────── -/

/-- C6 counterexample: a matched Unix process whose command line contains no
security token is not treated as a hard failure — `parseUnix` returns a
`ParsedProcess` with an empty token instead of the not-found result, and the
locator proceeds to port probing (here returning a found result with an
empty token), refuting the claim. -/
theorem claim6_counterexample :
    matchToken (unixCmd stdout6) = none ∧
    parseUnix stdout6 none = some ⟨some 1234, 8080, ""⟩ ∧
    findAntigravityProcess (parseUnix stdout6 none) [8080] (fun _ => true) =
      some ⟨8080, ""⟩ := by
  refine ⟨by decide, by decide, ?_⟩
  rw [show parseUnix stdout6 none = some ⟨some 1234, 8080, ""⟩ by decide]
  rfl

/-- C6 (amended): on Windows a matched process whose command line has no
token match is a hard parse failure (null), but on Unix the parse tolerates
a missing token, returning a `ParsedProcess` with an empty `csrfToken`;
absence of the hinted port alone never causes a parse failure on either
platform — the port merely defaults to 0. -/
theorem claim6_token_handling :
    (∀ (j : WinJson) (e : WinProcEntry), winChosen j = some e →
      matchTokenWin (e.CommandLine.getD "") = none →
      parseWindows (some j) = none) ∧
    (∀ stdout ws t, unixTarget stdout ws = some t →
      matchToken (unixCmd t) = none →
      parseUnix stdout ws =
        some ⟨jsParseIntNat (firstToken (jsTrim t)),
          (matchPort (unixCmd t)).getD 0, ""⟩) ∧
    (∀ stdout ws t tok, unixTarget stdout ws = some t →
      matchToken (unixCmd t) = some tok →
      matchPort (unixCmd t) = none →
      parseUnix stdout ws =
        some ⟨jsParseIntNat (firstToken (jsTrim t)), 0, tok⟩) ∧
    (∀ (j : WinJson) (e : WinProcEntry) (pid : Nat) (tok : String),
      winChosen j = some e → e.ProcessId = some pid → pid ≠ 0 →
      matchTokenWin (e.CommandLine.getD "") = some tok →
      matchPort (e.CommandLine.getD "") = none →
      parseWindows (some j) = some ⟨some pid, 0, tok⟩) := by
  refine ⟨?_, ?_, ?_, ?_⟩
  · intro j e hch htok
    simp only [parseWindows, hch]
    cases hpid : e.ProcessId with
    | none => rfl
    | some pid =>
      by_cases hz : pid = 0
      · simp [hz]
      · simp only [hz, if_false, htok]
  · intro stdout ws t ht htok
    simp only [parseUnix, ht, htok]
    rfl
  · intro stdout ws t tok ht htok hport
    simp only [parseUnix, ht, htok, hport]
    rfl
  · intro j e pid tok hch hpid hz htok hport
    simp only [parseWindows, hch, hpid, hz, if_false, htok, hport]
    rfl

/-- Witness for C6 (amended) on the concrete token-less Unix line. -/
theorem claim6_witness :
    parseUnix stdout6 none =
      some ⟨jsParseIntNat (firstToken (jsTrim stdout6)),
        (matchPort (unixCmd stdout6)).getD 0, ""⟩ :=
  claim6_token_handling.2.1 stdout6 none stdout6 (by decide) (by decide)

end AntigravityPulse
